import Mathlib

/-!
Shallow embedding of the UDP relay core (`udp.go`) of go-shadowsocks2:
buffer pool, session tables (`m : map[string]chan []byte` in `udpLocal` /
`udpRemote`, and the `natmap` used by `udpSocksLocal`), the directional copy
loop `timedCopy` with its three roles (`remoteServer`, `relayClient`,
`socksClient`), and the per-datagram processing of the three listener loops.

Bytes are modelled as `Nat` (values `< 256` where it matters), buffers as
`List Nat`, Go maps as association lists, and the capacity-1 channel of a
session as an `Option` slot.  The SOCKS address codec lives in an external
package (`github.com/Potterli20/go-shadowsocks2/socks`) that is not part of
the sources; it is modelled from the spec where noted.
-/

namespace UdpRelay

/-- `udpBufSize = 64 * 1024`, the fixed buffer capacity from `udp.go`. -/
def udpBufSize : Nat := 64 * 1024

/-! ## Go primitives used by `udp.go` -/

/-- Semantics of Go's built-in `copy(dst, src)`: copies
`min (len src) (len dst)` elements into the front of `dst` and leaves the
rest of `dst` unchanged.  Go's `copy` permits overlapping slices and behaves
as if the source were read before any write (memmove), which is exactly this
functional description.  Returns the new contents of `dst`. -/
def goCopy (dst src : List Nat) : List Nat :=
  src.take (min src.length dst.length) ++ dst.drop (min src.length dst.length)

/-- `copy(dst[off:], src)` viewed as a transformation of the whole of `dst`. -/
def goCopyAt (dst : List Nat) (off : Nat) (src : List Nat) : List Nat :=
  dst.take off ++ goCopy (dst.drop off) src

/-- Semantics of the Go slice expression `b[lo:hi]`: defined when
`lo <= hi <= len b`, otherwise the program panics (modelled as `none`). -/
def goSlice (b : List Nat) (lo hi : Nat) : Option (List Nat) :=
  if lo ≤ hi ∧ hi ≤ b.length then some ((b.take hi).drop lo) else none

/-! ## SOCKS address codec

The codec is consumed from the external `socks` package, which is not among
the sources; it is modelled from the spec (section 3 "Target Address
Prefix": a variable-length encoding of `{address type, address, port}`
whose length is self-describing from the first byte(s); section 6 "Address
codec": `parse`, `split`, `toText`).  The concrete self-describing layout is
the SOCKS5 one the spec names: type byte 1 = IPv4 with 4 address bytes,
type byte 3 = domain name with one length byte and that many name bytes,
type byte 4 = IPv6 with 16 address bytes, each followed by a 2-byte port. -/

/-- Modelled from the spec: a structured `{address type, address, port}`
target address, the abstract value encoded into / decoded from an address
framing byte sequence by the external `socks` codec. -/
inductive SocksAddr where
  | ipv4 (addr : List Nat) (port : List Nat)
  | domain (name : List Nat) (port : List Nat)
  | ipv6 (addr : List Nat) (port : List Nat)
deriving DecidableEq, Repr

/-- Well-formedness of a structured address: the address part has the
length its type byte dictates (4 for IPv4, 16 for IPv6, at most 255 bytes
for a domain name so the length fits its one self-describing byte), the
port is 2 bytes, and all bytes are byte-valued. -/
def SocksAddr.valid : SocksAddr → Prop
  | .ipv4 a p => a.length = 4 ∧ p.length = 2 ∧ (∀ x ∈ a, x < 256) ∧ ∀ x ∈ p, x < 256
  | .domain n p => n.length ≤ 255 ∧ p.length = 2 ∧ (∀ x ∈ n, x < 256) ∧ ∀ x ∈ p, x < 256
  | .ipv6 a p => a.length = 16 ∧ p.length = 2 ∧ (∀ x ∈ a, x < 256) ∧ ∀ x ∈ p, x < 256

instance (A : SocksAddr) : Decidable A.valid := by
  cases A <;> simp [SocksAddr.valid] <;> infer_instance

/-- Modelled from the spec: the address framing bytes (`prefixBytes`) of a
structured address — the `socks.Addr` value `socks.ParseAddr` produces for
the text form of that address. -/
def encodeAddr : SocksAddr → List Nat
  | .ipv4 a p => 1 :: (a ++ p)
  | .domain n p => 3 :: n.length :: (n ++ p)
  | .ipv6 a p => 4 :: (a ++ p)

/-- Modelled from the spec: the self-describing length of the address
framing bytes at the front of a datagram, or `none` when the leading bytes
are not a valid target-address-prefix (`socks.SplitAddr` returning `nil`). -/
def splitAddrLen (b : List Nat) : Option Nat :=
  match b with
  | 1 :: _ => if 1 + 4 + 2 ≤ b.length then some (1 + 4 + 2) else none
  | 3 :: l :: _ => if 1 + 1 + l + 2 ≤ b.length then some (1 + 1 + l + 2) else none
  | 4 :: _ => if 1 + 16 + 2 ≤ b.length then some (1 + 16 + 2) else none
  | _ => none

/-- Modelled from the spec: `split(datagramBytes) -> (prefix, remainder) | nil`:
splits a datagram into its leading target-address-prefix and the remaining
payload when the leading bytes form a valid prefix. -/
def splitAddr (b : List Nat) : Option (List Nat × List Nat) :=
  (splitAddrLen b).map (fun l => (b.take l, b.drop l))

/-- Modelled from the spec: decoding address framing bytes back into the
structured address they encode (`toText` composed with parsing the text). -/
def decodeAddr (b : List Nat) : Option SocksAddr :=
  match b with
  | 1 :: rest =>
    if rest.length = 6 then some (.ipv4 (rest.take 4) (rest.drop 4)) else none
  | 3 :: l :: rest =>
    if rest.length = l + 2 then some (.domain (rest.take l) (rest.drop l)) else none
  | 4 :: rest =>
    if rest.length = 18 then some (.ipv6 (rest.take 16) (rest.drop 16)) else none
  | _ => none

/-- In Go, `len` of a `nil` slice is `0`; `socks.SplitAddr` returns either
the prefix slice or `nil`.  `buf[len(srcAddr):n]` therefore drops the prefix
length when the split succeeded and `0` bytes when it returned `nil`. -/
def splitLenOrZero (b : List Nat) : Nat :=
  match splitAddrLen b with
  | some l => l
  | none => 0

/-! ## The directional copy loop `timedCopy` -/

/-- The `mode` enumeration of `udp.go`:
`remoteServer`, `relayClient`, `socksClient`. -/
inductive Mode where
  | remoteServer
  | relayClient
  | socksClient
deriving DecidableEq, Repr

/-- One successful iteration of `timedCopy`, given the role, the source
address `raddr` of the read, the buffer contents `buf` and the byte count
`n` of the read: the datagram passed to `dst.WriteTo`, from the `switch` of
`timedCopy` (udp.go lines 303-314).
For `remoteServer`: `srcAddr := socks.ParseAddr(raddr.String())`, then
`copy(buf[len(srcAddr):], buf[:n])`, `copy(buf, srcAddr)`, and the write is
`buf[:len(srcAddr)+n]`.
For `relayClient`: `srcAddr := socks.SplitAddr(buf[:n])` and the write is
`buf[len(srcAddr):n]` (with `len nil = 0`).
For `socksClient`: the write is `append([]byte{0, 0, 0}, buf[:n]...)`. -/
def timedCopyWrite (role : Mode) (raddr : SocksAddr) (buf : List Nat) (n : Nat) :
    List Nat :=
  match role with
  | .remoteServer =>
    let srcAddr := encodeAddr raddr
    let buf1 := goCopyAt buf srcAddr.length (buf.take n)
    let buf2 := goCopy buf1 srcAddr
    buf2.take (srcAddr.length + n)
  | .relayClient =>
    (buf.take n).drop (splitLenOrZero (buf.take n))
  | .socksClient =>
    0 :: 0 :: 0 :: buf.take n

/-! ## Session tables

Go maps (`m : map[string]chan []byte` in `udpLocal` / `udpRemote`, and
`natmap.m : map[string]net.PacketConn`) are modelled as association lists
from peer keys to session identifiers (channels and sockets are numbered). -/

/-- Map lookup `m[k]` on an association list. -/
def lookupKey (k : String) : List (String × Nat) → Option Nat
  | [] => none
  | (k1, v) :: t => if k1 = k then some v else lookupKey k t

/-- Map deletion `delete(m, k)` on an association list. -/
def removeKey (k : String) : List (String × Nat) → List (String × Nat)
  | [] => []
  | (k1, v) :: t => if k1 = k then removeKey k t else (k1, v) :: removeKey k t

/-- The keys of an association list. -/
def keysOf (t : List (String × Nat)) : List String :=
  t.map Prod.fst

/-! ### The queue-based listeners `udpLocal` and `udpRemote`

`udpLocal` (udp.go lines 46-107) and `udpRemote` (lines 165-239) share the
same session-table discipline: a `map[string]chan []byte` guarded by a
`sync.Mutex`.  Each lock-protected critical section is one atomic step of a
transition system; the steps of the single listener goroutine interleave
arbitrarily with the teardown steps of the per-session copy-loop goroutines. -/

/-- Shared state of a queue-based listener: the session table `m`, and a
counter supplying fresh forwarding-socket/channel identifiers. -/
structure QueueState where
  table : List (String × Nat)
  nextSock : Nat
deriving DecidableEq, Repr

/-- An atomic critical section of a queue-based listener loop:
`arrive k` is the listener's section `lock.Lock(); ch := m[k]; if ch == nil
{ create socket and channel; m[k] = ch; spawn loops }; lock.Unlock()`
(udp.go lines 59-100 and 177-232); `teardown k` is the copy-loop exit
section `lock.Lock(); close(m[k]); delete(m, k); lock.Unlock()`
(lines 91-96 and 223-228). -/
inductive QueueAct where
  | arrive (k : String)
  | teardown (k : String)
deriving DecidableEq, Repr

/-- One atomic step of the queue-based listener system. -/
def qStep (s : QueueState) : QueueAct → QueueState
  | .arrive k =>
    match lookupKey k s.table with
    | some _ => s
    | none => { table := (k, s.nextSock) :: s.table, nextSock := s.nextSock + 1 }
  | .teardown k => { s with table := removeKey k s.table }

/-- Run a queue-based listener system from the empty table. -/
def qRun (acts : List QueueAct) : QueueState :=
  acts.foldl qStep ⟨[], 0⟩

/-! ### The `natmap` used by `udpSocksLocal`

`natmap` (udp.go lines 243-290) guards its map with an `RWMutex`; `Get`,
`Set` and `Del` are each one critical section, but the listener's existence
check (`Get`, line 135) and its insertion (`Add` → `Set`, line 144) are
separate acquisitions with the lock released in between.  The listener is a
single sequential goroutine; `Del` steps of the per-session reaper
goroutines (line 286) interleave freely. -/

/-- `natmap.Get`: `m.m[key]` under `RLock`. -/
def natGet (k : String) (t : List (String × Nat)) : Option Nat :=
  lookupKey k t

/-- `natmap.Set`: `m.m[key] = pc` under `Lock` (map assignment overwrites). -/
def natSet (k : String) (v : Nat) (t : List (String × Nat)) :
    List (String × Nat) :=
  (k, v) :: removeKey k t

/-- `natmap.Del`: under `Lock`, `pc, ok := m.m[key]; if ok { delete(m.m, key);
return pc }; return nil`.  Returns the removed connection (or `none`) and
the table afterwards. -/
def natDel (k : String) (t : List (String × Nat)) :
    Option Nat × List (String × Nat) :=
  match lookupKey k t with
  | some pc => (some pc, removeKey k t)
  | none => (none, t)

/-- The reaper spawned by `natmap.Add` after `timedCopy` returns
(udp.go lines 284-289): `if pc := m.Del(peer.String()); pc != nil
{ pc.Close() }`.  Returns the table afterwards and the list of sockets this
path closed. -/
def addReaper (k : String) (t : List (String × Nat)) :
    List (String × Nat) × List Nat :=
  match natDel k t with
  | (some pc, t1) => (t1, [pc])
  | (none, t1) => (t1, [])

/-- The session lookup/create of the `udpSocksLocal` body (udp.go lines
135-145): `pc := nm.Get(raddr.String()); if pc == nil { pc = ListenPacket;
nm.Add(raddr, c, pc, socksClient) }`.  Given the fresh socket identifier to
use on creation, returns the session's socket, the table afterwards, and
whether a new forwarding socket was created. -/
def socksLookupCreate (k : String) (fresh : Nat) (t : List (String × Nat)) :
    Nat × List (String × Nat) × Bool :=
  match natGet k t with
  | some pc => (pc, t, false)
  | none => (fresh, natSet k fresh t, true)

/-- State of the `udpSocksLocal` listener interleaved with its reapers:
the `natmap` table, the listener's position inside its per-datagram body
(`pending = some k` after `Get k` returned `nil` and before the `Set`), and
the fresh-socket counter. -/
structure NatState where
  table : List (String × Nat)
  pending : Option String
  nextSock : Nat
deriving DecidableEq, Repr

/-- An atomic critical section of the `udpSocksLocal` system: `lget k` is
the listener's `nm.Get(raddr.String())` (skipped while the listener is
already between `Get` and `Set`); `lset` is the listener's
`nm.Add` → `Set` completing a pending creation; `rdel k` is a reaper's
`m.Del(peer.String())`. -/
inductive NatAct where
  | lget (k : String)
  | lset
  | rdel (k : String)
deriving DecidableEq, Repr

/-- One atomic step of the `udpSocksLocal` system. -/
def nStep (s : NatState) : NatAct → NatState
  | .lget k =>
    match s.pending with
    | some _ => s
    | none =>
      match natGet k s.table with
      | some _ => s
      | none => { s with pending := some k }
  | .lset =>
    match s.pending with
    | none => s
    | some k =>
      { table := natSet k s.nextSock s.table, pending := none,
        nextSock := s.nextSock + 1 }
  | .rdel k => { s with table := (natDel k s.table).2 }

/-- Run the `udpSocksLocal` system from the empty table. -/
def nRun (acts : List NatAct) : NatState :=
  acts.foldl nStep ⟨[], none, 0⟩

/-- Invariant of the `udpSocksLocal` system: the table has at most one
entry per peer key, and whenever the listener is between its existence
check and its insertion for key `k`, no entry for `k` is in the table — so
the completed insertion never overwrites (duplicates) a live session. -/
def NInv (s : NatState) : Prop :=
  (keysOf s.table).Nodup ∧ ∀ k, s.pending = some k → natGet k s.table = none

/-! ## The capacity-1 session inbox

Each queue-based session's channel `ch := make(chan []byte, 1)` together
with the non-blocking enqueue `select { case ch <- buf: default:
bufPool.Put(buf) }` (udp.go lines 102-106 and 234-238) and the drain loop's
receive `for buf := range ch` (lines 73 and 193). -/

/-- State of one session's inbox: the channel slot, the buffers returned to
`bufPool` so far (most recent first), the datagrams actually received by the
drain loop in order, and the datagrams dropped by the `default` branch. -/
structure InboxState where
  inbox : Option (List Nat)
  pool : List (List Nat)
  sent : List (List Nat)
  dropped : List (List Nat)
deriving DecidableEq, Repr

/-- An inbox event: `enq b` is the listener's non-blocking send of datagram
`b`; `deq` is the drain loop receiving the pending datagram. -/
inductive InboxAct where
  | enq (b : List Nat)
  | deq
deriving DecidableEq, Repr

/-- One inbox step: a send on a full capacity-1 channel takes the `default`
branch, returning the buffer to the pool; a receive empties the slot. -/
def inboxStep (s : InboxState) : InboxAct → InboxState
  | .enq b =>
    match s.inbox with
    | none => { s with inbox := some b }
    | some _ => { s with pool := b :: s.pool, dropped := b :: s.dropped }
  | .deq =>
    match s.inbox with
    | none => s
    | some b => { s with inbox := none, sent := s.sent ++ [b] }

/-- Run an inbox from the empty state. -/
def inboxRun (acts : List InboxAct) : InboxState :=
  acts.foldl inboxStep ⟨none, [], [], []⟩

/-- The datagrams a sequence of inbox events enqueues, in order. -/
def enqueuedOf : List InboxAct → List (List Nat)
  | [] => []
  | .enq b :: acts => b :: enqueuedOf acts
  | .deq :: acts => enqueuedOf acts

/-! ## The drain loop of `udpRemote`

`for buf := range ch { tgtAddr := socks.SplitAddr(buf); if tgtAddr == nil
{ log; goto End }; resolve; pc.WriteTo(buf[len(tgtAddr):], tgtUDPAddr);
End: bufPool.Put(buf[:cap(buf)]) }` (udp.go lines 189-212).  A failed split
or resolve skips to `End`, so the buffer is always released and the loop
continues with the next datagram; the loop only ends when the channel is
closed.  `resolveOk` abstracts whether `net.ResolveUDPAddr` succeeds on the
split address. -/

/-- The drain loop over a list of received datagrams: returns the payloads
written to the target in order, and the number of buffers released to the
pool. -/
def drainLoop (resolveOk : List Nat → Bool) : List (List Nat) → List (List Nat) × Nat
  | [] => ([], 0)
  | d :: ds =>
    let rest := drainLoop resolveOk ds
    match splitAddr d with
    | none => (rest.1, rest.2 + 1)
    | some (pfx, _) =>
      if resolveOk pfx then (d.drop pfx.length :: rest.1, rest.2 + 1)
      else (rest.1, rest.2 + 1)

/-! ## The `timedCopy` loop as an operation trace -/

/-- The outcome of one `src.ReadFrom(buf)` in `timedCopy`: a successful
read of `data` from source address `raddr`, a deadline expiry, or another
read error. -/
inductive ReadRes where
  | ok (raddr : SocksAddr) (data : List Nat)
  | timeout
  | fail
deriving DecidableEq, Repr

/-- An observable operation of the `timedCopy` loop. -/
inductive CopyOp where
  | setDeadline
  | read (r : ReadRes)
  | write (w : List Nat)
deriving DecidableEq, Repr

/-- `src.ReadFrom(buf)` writing `data` into the front of `buf`. -/
def readInto (buf data : List Nat) : List Nat :=
  goCopy buf data

/-- The buffer contents after one iteration's transform: the
`remoteServer` branch mutates `buf` in place with its two copies, the other
branches leave it unchanged. -/
def timedCopyStepBuf (role : Mode) (raddr : SocksAddr) (buf : List Nat) (n : Nat) :
    List Nat :=
  match role with
  | .remoteServer =>
    let srcAddr := encodeAddr raddr
    goCopy (goCopyAt buf srcAddr.length (buf.take n)) srcAddr
  | .relayClient => buf
  | .socksClient => buf

/-- The operation trace of `timedCopy` (udp.go lines 293-320) on a list of
read outcomes: each iteration sets the read deadline
(`src.SetReadDeadline(time.Now().Add(timeout))`), performs the read, and on
success writes the role-transformed datagram; a read error ends the loop
(and the trace). -/
def timedCopyOps (role : Mode) (buf : List Nat) : List ReadRes → List CopyOp
  | [] => []
  | r :: es =>
    CopyOp.setDeadline :: CopyOp.read r ::
      match r with
      | .timeout => []
      | .fail => []
      | .ok raddr data =>
        let buf1 := readInto buf data
        CopyOp.write (timedCopyWrite role raddr buf1 data.length) ::
          timedCopyOps role (timedCopyStepBuf role raddr buf1 data.length) es

/-- The read error that makes `timedCopy` return, if the trace contains
one: the loop only ever ends by returning a read (or write) error. -/
def timedCopyResult : List ReadRes → Option ReadRes
  | [] => none
  | .ok _ _ :: es => timedCopyResult es
  | .timeout :: _ => some .timeout
  | .fail :: _ => some .fail

/-! ## The `udpSocksLocal` listener body -/

/-- The datagram `udpSocksLocal` writes to the forwarding socket for a read
of `n` bytes: the Go slice expression `buf[3:n]` of
`pc.WriteTo(buf[3:n], srvAddr)` (udp.go line 147), which panics (`none`)
when the slice range is invalid; the loop performs no minimum-length check
on `n` before this slice. -/
def udpSocksLocalWrite (buf : List Nat) (n : Nat) : Option (List Nat) :=
  goSlice buf 3 n

/-- Relation between consecutive trace operations: a read is always
immediately preceded by a deadline-setting operation. -/
def deadlineBeforeRead (a b : CopyOp) : Prop :=
  ∀ r, b = CopyOp.read r → a = CopyOp.setDeadline

/-! ## Lemmas on the table operations -/

theorem lookupKey_removeKey (k0 k : String) (t : List (String × Nat)) :
    lookupKey k0 (removeKey k t) = if k0 = k then none else lookupKey k0 t := by
  induction t with
  | nil => simp [removeKey, lookupKey]
  | cons e t ih =>
    obtain ⟨k1, v⟩ := e
    simp only [removeKey, lookupKey]
    by_cases h1 : k1 = k
    · simp only [if_pos h1, ih]
      by_cases h0 : k0 = k
      · simp [h0]
      · have h2 : ¬k1 = k0 := by
          intro h
          exact h0 (h.symm.trans h1)
        simp [h0, h2]
    · simp only [if_neg h1, lookupKey]
      by_cases h2 : k1 = k0
      · have h0 : ¬k0 = k := by
          intro h
          exact h1 (h2.trans h)
        simp [h2, h0]
      · simp [h2, ih]

theorem removeKey_sublist (k : String) (t : List (String × Nat)) :
    List.Sublist (removeKey k t) t := by
  induction t with
  | nil => simp [removeKey]
  | cons e t ih =>
    obtain ⟨k1, v⟩ := e
    by_cases h1 : k1 = k
    · simpa [removeKey, h1] using ih.cons (k1, v)
    · simpa [removeKey, h1] using ih.cons₂ (k1, v)

theorem keysOf_removeKey_nodup (k : String) (t : List (String × Nat))
    (h : (keysOf t).Nodup) : (keysOf (removeKey k t)).Nodup :=
  h.sublist ((removeKey_sublist k t).map Prod.fst)

theorem lookupKey_eq_none_iff (k : String) (t : List (String × Nat)) :
    lookupKey k t = none ↔ k ∉ keysOf t := by
  induction t with
  | nil => simp [lookupKey, keysOf]
  | cons e t ih =>
    obtain ⟨k1, v⟩ := e
    by_cases h1 : k1 = k
    · subst h1
      simp [lookupKey, keysOf]
    · have h1' : ¬k1 = k := h1
      have h1'' : ¬k = k1 := fun h => h1 h.symm
      simp [lookupKey, keysOf, h1', h1'', ih]

/-! ## Invariant preservation for the session-table systems -/

theorem qStep_nodup (s : QueueState) (a : QueueAct)
    (h : (keysOf s.table).Nodup) : (keysOf (qStep s a).table).Nodup := by
  cases a with
  | arrive k =>
    cases hk : lookupKey k s.table with
    | some v => simpa [qStep, hk] using h
    | none =>
      have hmem : k ∉ keysOf s.table := (lookupKey_eq_none_iff k s.table).mp hk
      simp only [qStep, hk, keysOf, List.map_cons, List.nodup_cons]
      exact ⟨hmem, h⟩
  | teardown k =>
    simpa [qStep] using keysOf_removeKey_nodup k s.table h

theorem qRun_aux_nodup (acts : List QueueAct) (s : QueueState)
    (h : (keysOf s.table).Nodup) :
    (keysOf (acts.foldl qStep s).table).Nodup := by
  induction acts generalizing s with
  | nil => simpa using h
  | cons a acts ih => exact ih (qStep s a) (qStep_nodup s a h)

theorem nStep_inv (s : NatState) (a : NatAct) (h : NInv s) : NInv (nStep s a) := by
  obtain ⟨hn, hp⟩ := h
  cases a with
  | lget k =>
    cases hpend : s.pending with
    | some k0 => simpa [nStep, hpend] using ⟨hn, hp⟩
    | none =>
      cases hk : natGet k s.table with
      | some v =>
        refine ⟨by simpa [nStep, hpend, hk] using hn, ?_⟩
        intro k0 h0
        simp [nStep, hpend, hk] at h0
      | none =>
        refine ⟨by simpa [nStep, hpend, hk] using hn, ?_⟩
        intro k0 h0
        simp only [nStep, hpend, hk] at h0 ⊢
        rw [Option.some_inj] at h0
        subst h0
        exact hk
  | lset =>
    cases hpend : s.pending with
    | none => exact ⟨by simpa [nStep, hpend] using hn, by simp [nStep, hpend, hp]⟩
    | some k =>
      constructor
      · have hrm := keysOf_removeKey_nodup k s.table hn
        have habs : k ∉ keysOf (removeKey k s.table) := by
          refine (lookupKey_eq_none_iff k (removeKey k s.table)).mp ?_
          simp [lookupKey_removeKey]
        simp only [nStep, hpend, natSet, keysOf, List.map_cons, List.nodup_cons]
        exact ⟨habs, hrm⟩
      · intro k0 h0
        simp [nStep, hpend] at h0
  | rdel k =>
    constructor
    · cases hk : lookupKey k s.table with
      | some v =>
        simpa [nStep, natDel, hk] using keysOf_removeKey_nodup k s.table hn
      | none => simpa [nStep, natDel, hk] using hn
    · intro k0 h0
      simp only [nStep] at h0 ⊢
      have hprev := hp k0 h0
      cases hk : lookupKey k s.table with
      | some v =>
        simp only [natDel, hk, natGet]
        rw [lookupKey_removeKey]
        by_cases h01 : k0 = k
        · simp [h01]
        · simpa [h01] using hprev
      | none => simpa [natDel, hk] using hprev

theorem nRun_aux_inv (acts : List NatAct) (s : NatState) (h : NInv s) :
    NInv (acts.foldl nStep s) := by
  induction acts generalizing s with
  | nil => simpa using h
  | cons a acts ih => exact ih (nStep s a) (nStep_inv s a h)

/-- C1: at most one session (forwarding socket plus table entry) exists per
peer key at any time, in every reachable state of each listener system.
For the queue-based listeners `udpLocal` and `udpRemote`, whose existence
check and insertion form one lock-protected critical section (one atomic
`arrive` step), the table keys stay duplicate-free under every interleaving
of arrivals and teardowns, and an arrival for a peer that already has a
session leaves the whole state unchanged — it observes the first session
and allocates no second forwarding socket.  For `udpSocksLocal`, whose
`natmap.Get` check and `natmap.Add`/`Set` insertion are separate critical
sections of the single sequential listener, every interleaving with the
reapers' `Del` steps likewise keeps the table duplicate-free, and the
pending insertion always lands on an absent key (`NInv`), so it never
creates a duplicate session either. -/
theorem single_session_invariant :
    (∀ acts : List QueueAct, (keysOf (qRun acts).table).Nodup) ∧
    (∀ (acts : List QueueAct) (k : String) (pc : Nat),
      lookupKey k (qRun acts).table = some pc →
      qStep (qRun acts) (QueueAct.arrive k) = qRun acts) ∧
    (∀ acts : List NatAct, NInv (nRun acts)) := by
  refine ⟨fun acts => qRun_aux_nodup acts ⟨[], 0⟩ (by simp [keysOf]), ?_, ?_⟩
  · intro acts k pc h
    simp [qStep, h]
  · intro acts
    exact nRun_aux_inv acts ⟨[], none, 0⟩ ⟨by simp [keysOf], by simp⟩

/-- Witness for C1: a concrete run in which peer `p` already has a session;
a second arrival for `p` leaves the system unchanged. -/
theorem single_session_invariant_witness :
    qStep (qRun [QueueAct.arrive "p", QueueAct.arrive "q"]) (QueueAct.arrive "p") =
      qRun [QueueAct.arrive "p", QueueAct.arrive "q"] :=
  single_session_invariant.2.1 [QueueAct.arrive "p", QueueAct.arrive "q"] "p" 0
    (by decide)

/-- C7: `natmap.Del` is idempotent and reports removal.  After a `Set`, the
first `Del` returns the stored connection and removes the entry; in
general the first `Del` returns exactly what `Get` would, a second `Del`
with the same key returns `nil` and leaves the table unchanged; and when
two teardown paths (`addReaper`) race for the same session — any
interleaving of their lock-protected `Del` sections being one of the two
sequential orders — `Close` is invoked exactly on the one stored socket if
present, hence at most once and never twice. -/
theorem natmap_del_idempotent (t : List (String × Nat)) (k : String) (v : Nat) :
    (natDel k (natSet k v t)).1 = some v ∧
    natGet k (natDel k (natSet k v t)).2 = none ∧
    (natDel k t).1 = natGet k t ∧
    (natDel k (natDel k t).2).1 = none ∧
    (natDel k (natDel k t).2).2 = (natDel k t).2 ∧
    (addReaper k t).2 ++ (addReaper k (addReaper k t).1).2 = (natGet k t).toList ∧
    ((addReaper k t).2 ++ (addReaper k (addReaper k t).1).2).length ≤ 1 := by
  have hset : lookupKey k ((k, v) :: removeKey k t) = some v := by
    simp [lookupKey]
  have hrm : ∀ t1 : List (String × Nat), lookupKey k (removeKey k t1) = none := by
    intro t1
    simp [lookupKey_removeKey]
  refine ⟨by simp [natDel, natSet, hset], ?_, ?_, ?_, ?_, ?_, ?_⟩
  · simp [natDel, natSet, hset, natGet, hrm]
  · cases hk : lookupKey k t <;> simp [natDel, natGet, hk]
  · cases hk : lookupKey k t <;> simp [natDel, hk, hrm]
  · cases hk : lookupKey k t <;> simp [natDel, hk, hrm]
  · cases hk : lookupKey k t <;> simp [addReaper, natDel, hk, hrm, natGet]
  · cases hk : lookupKey k t <;> simp [addReaper, natDel, hk, hrm]

/-- C8: the capacity-1 inbox with non-blocking enqueue.  When one datagram
is already pending, an arriving datagram is dropped: the slot still holds
the older datagram (never displaced), the new buffer goes back to the pool
immediately, and nothing new reaches the drain loop; when the slot is
free, the datagram is enqueued.  Moreover over any interleaving of
enqueues and drains, the datagrams the drain loop receives (followed by the
one still pending) form a subsequence of the enqueued datagrams in arrival
order — an older pending datagram is never reordered behind a newer one. -/
theorem inbox_backpressure :
    (∀ (s : InboxState) (b old : List Nat), s.inbox = some old →
      (inboxStep s (InboxAct.enq b)).inbox = some old ∧
      (inboxStep s (InboxAct.enq b)).pool = b :: s.pool ∧
      (inboxStep s (InboxAct.enq b)).sent = s.sent ∧
      (inboxStep s (InboxAct.enq b)).dropped = b :: s.dropped) ∧
    (∀ (s : InboxState) (b : List Nat), s.inbox = none →
      inboxStep s (InboxAct.enq b) = { s with inbox := some b }) ∧
    (∀ acts : List InboxAct,
      List.Sublist ((inboxRun acts).sent ++ (inboxRun acts).inbox.toList)
        (enqueuedOf acts)) := by
  have step_rel : ∀ (s : InboxState) (a : InboxAct),
      List.Sublist ((inboxStep s a).sent ++ (inboxStep s a).inbox.toList)
        ((s.sent ++ s.inbox.toList) ++ enqueuedOf [a]) := by
    intro s a
    cases a with
    | enq b =>
      cases hs : s.inbox with
      | none => simp [inboxStep, hs, enqueuedOf]
      | some old =>
        simp only [inboxStep, hs, enqueuedOf, Option.toList]
        simp [List.sublist_append_left]
    | deq =>
      cases hs : s.inbox with
      | none => simp [inboxStep, hs, enqueuedOf]
      | some b => simp [inboxStep, hs, enqueuedOf]
  have aux : ∀ (acts : List InboxAct) (s : InboxState),
      List.Sublist ((acts.foldl inboxStep s).sent ++ (acts.foldl inboxStep s).inbox.toList)
        ((s.sent ++ s.inbox.toList) ++ enqueuedOf acts) := by
    intro acts
    induction acts with
    | nil => intro s; simp
    | cons a acts ih =>
      intro s
      refine (ih (inboxStep s a)).trans ?_
      have h1 := step_rel s a
      have h2 : enqueuedOf (a :: acts) = enqueuedOf [a] ++ enqueuedOf acts := by
        cases a <;> simp [enqueuedOf]
      rw [h2, ← List.append_assoc]
      exact h1.append_right (enqueuedOf acts)
  refine ⟨?_, ?_, ?_⟩
  · intro s b old h
    simp [inboxStep, h]
  · intro s b h
    simp [inboxStep, h]
  · intro acts
    simpa [inboxRun] using aux acts ⟨none, [], [], []⟩

/-- Witness for C8: with datagram `[1]` pending, an arriving `[2]` is
dropped to the pool and `[1]` stays pending. -/
theorem inbox_backpressure_witness :
    (inboxStep ⟨some [1], [], [], []⟩ (InboxAct.enq [2])).inbox = some [1] ∧
    (inboxStep ⟨some [1], [], [], []⟩ (InboxAct.enq [2])).pool = [[2]] ∧
    (inboxStep ⟨some [1], [], [], []⟩ (InboxAct.enq [2])).sent = [] ∧
    (inboxStep ⟨some [1], [], [], []⟩ (InboxAct.enq [2])).dropped = [[2]] :=
  inbox_backpressure.1 ⟨some [1], [], [], []⟩ [2] [1] rfl

/-- C10: `udpSocksLocal` performs no minimum-length check before the slice
`buf[3:n]`: for every read of fewer than 3 bytes the slice range is
invalid and the listener panics. -/
theorem udpSocksLocal_short_read_panics (buf : List Nat) (n : Nat) (h : n < 3) :
    udpSocksLocalWrite buf n = none := by
  have : ¬(3 ≤ n ∧ n ≤ buf.length) := by omega
  simp [udpSocksLocalWrite, goSlice, this]

/-- Witness for C10: a 2-byte datagram read by the SOCKS5 local listener
panics at `buf[3:n]`. -/
theorem udpSocksLocal_short_read_panics_witness :
    udpSocksLocalWrite (List.replicate 16 0) 2 = none :=
  udpSocksLocal_short_read_panics (List.replicate 16 0) 2 (by decide)

/-- C6: in role `socksClient`, the datagram written to the SOCKS client is
exactly the three bytes 0, 0, 0 followed by the payload read, unmodified;
in particular payload `[0x61, 0x62]` yields `[0, 0, 0, 0x61, 0x62]`. -/
theorem socksClient_header_synthesis (raddr : SocksAddr) (buf : List Nat) (n : Nat) :
    timedCopyWrite Mode.socksClient raddr buf n = [0, 0, 0] ++ buf.take n ∧
    timedCopyWrite Mode.socksClient raddr [0x61, 0x62] 2 = [0, 0, 0, 0x61, 0x62] := by
  exact ⟨rfl, rfl⟩

/-! ## The `remoteServer` framing transform -/

theorem goCopy_of_le (dst src : List Nat) (h : src.length ≤ dst.length) :
    goCopy dst src = src ++ dst.drop src.length := by
  simp [goCopy, Nat.min_eq_left h]

/-- C2: in role `remoteServer` (ServerToClient), for a successful read of
`n` payload bytes from source address `raddr`, the written datagram is
exactly the SOCKS encoding of `raddr` followed by the `n` payload bytes
unmodified — the two in-place `copy`s of the branch (shift the payload
right by the prefix length, then write the prefix over the front) compose
to prefix-plus-payload of length `len(srcAddr) + n`.  The hypothesis is
that prefix plus payload fit in the 64 KiB buffer, which holds for every
datagram a UDP read can produce. -/
theorem remoteServer_framing (raddr : SocksAddr) (buf : List Nat) (n : Nat)
    (h : (encodeAddr raddr).length + n ≤ buf.length) :
    timedCopyWrite Mode.remoteServer raddr buf n = encodeAddr raddr ++ buf.take n := by
  show (goCopy (goCopyAt buf (encodeAddr raddr).length (buf.take n))
      (encodeAddr raddr)).take ((encodeAddr raddr).length + n) =
    encodeAddr raddr ++ buf.take n
  generalize encodeAddr raddr = p at h ⊢
  have hn : n ≤ buf.length := by omega
  have htn : (buf.take n).length = n := by
    simp only [List.length_take]
    omega
  have h1 : goCopy (buf.drop p.length) (buf.take n) =
      buf.take n ++ buf.drop (p.length + n) := by
    rw [goCopy_of_le _ _ (by rw [htn, List.length_drop]; omega), htn, List.drop_drop]
  have h2 : goCopyAt buf p.length (buf.take n) =
      buf.take p.length ++ (buf.take n ++ buf.drop (p.length + n)) := by
    rw [goCopyAt, h1]
  have hlen1 : (goCopyAt buf p.length (buf.take n)).length = buf.length := by
    rw [h2]
    simp only [List.length_append, List.length_take, List.length_drop]
    omega
  have htakeL : (buf.take p.length).length = p.length := by
    simp only [List.length_take]
    omega
  have h3 : goCopy (goCopyAt buf p.length (buf.take n)) p =
      p ++ (buf.take n ++ buf.drop (p.length + n)) := by
    rw [goCopy_of_le _ _ (by rw [hlen1]; omega)]
    congr 1
    rw [h2, List.drop_left' htakeL]
  rw [h3, List.take_append, List.take_left' htn]

/-- Witness for C2: a concrete reply of 3 bytes from 10.0.0.1:80 in a
12-byte buffer is framed as the encoded source address followed by the
payload. -/
theorem remoteServer_framing_witness :
    timedCopyWrite Mode.remoteServer (SocksAddr.ipv4 [10, 0, 0, 1] [0, 80])
        [7, 8, 9, 0, 0, 0, 0, 0, 0, 0, 0, 0] 3 =
      encodeAddr (SocksAddr.ipv4 [10, 0, 0, 1] [0, 80]) ++ [7, 8, 9] :=
  remoteServer_framing (SocksAddr.ipv4 [10, 0, 0, 1] [0, 80])
    [7, 8, 9, 0, 0, 0, 0, 0, 0, 0, 0, 0] 3 (by decide)

/-! ## Framing round trip -/

/-- C5: for every valid address `A` and payload `P`, splitting the
datagram produced by the ServerToClient transform — the prefix of `A`
followed by `P` — recovers the prefix and the untouched payload, the
prefix decodes back to `A`, and composing the prepend transform with the
ClientToUser strip transform is the identity on the payload. -/
theorem framing_round_trip (A : SocksAddr) (P : List Nat) (h : A.valid) :
    splitAddr (encodeAddr A ++ P) = some (encodeAddr A, P) ∧
    decodeAddr (encodeAddr A) = some A ∧
    timedCopyWrite Mode.relayClient A (encodeAddr A ++ P)
      ((encodeAddr A).length + P.length) = P := by
  have key : splitAddrLen (encodeAddr A ++ P) = some (encodeAddr A).length ∧
      decodeAddr (encodeAddr A) = some A := by
    cases A with
    | ipv4 a p2 =>
      obtain ⟨ha, hp2, -, -⟩ := h
      constructor
      · show splitAddrLen ((1 :: (a ++ p2)) ++ P) = some (1 :: (a ++ p2)).length
        simp only [List.cons_append, splitAddrLen]
        rw [if_pos (by simp only [List.length_cons, List.length_append, ha, hp2]; omega)]
        rw [Option.some_inj]
        simp only [List.length_cons, List.length_append, ha, hp2]
      · show decodeAddr (1 :: (a ++ p2)) = some (SocksAddr.ipv4 a p2)
        simp only [decodeAddr]
        rw [if_pos (by simp only [List.length_append, ha, hp2])]
        rw [List.take_left' ha, List.drop_left' ha]
    | domain nm p2 =>
      obtain ⟨-, hp2, -, -⟩ := h
      constructor
      · show splitAddrLen ((3 :: nm.length :: (nm ++ p2)) ++ P) =
          some (3 :: nm.length :: (nm ++ p2)).length
        simp only [List.cons_append, splitAddrLen]
        rw [if_pos (by simp only [List.length_cons, List.length_append, hp2]; omega)]
        rw [Option.some_inj]
        simp only [List.length_cons, List.length_append, hp2]
        omega
      · show decodeAddr (3 :: nm.length :: (nm ++ p2)) =
          some (SocksAddr.domain nm p2)
        simp only [decodeAddr]
        rw [if_pos (by simp only [List.length_append, hp2])]
        rw [List.take_left, List.drop_left]
    | ipv6 a p2 =>
      obtain ⟨ha, hp2, -, -⟩ := h
      constructor
      · show splitAddrLen ((4 :: (a ++ p2)) ++ P) = some (4 :: (a ++ p2)).length
        simp only [List.cons_append, splitAddrLen]
        rw [if_pos (by simp only [List.length_cons, List.length_append, ha, hp2]; omega)]
        rw [Option.some_inj]
        simp only [List.length_cons, List.length_append, ha, hp2]
      · show decodeAddr (4 :: (a ++ p2)) = some (SocksAddr.ipv6 a p2)
        simp only [decodeAddr]
        rw [if_pos (by simp only [List.length_append, ha, hp2])]
        rw [List.take_left' ha, List.drop_left' ha]
  obtain ⟨hlen, hdec⟩ := key
  have hsplit : splitAddr (encodeAddr A ++ P) = some (encodeAddr A, P) := by
    simp [splitAddr, hlen, List.take_left, List.drop_left]
  have htk : (encodeAddr A ++ P).take ((encodeAddr A).length + P.length) =
      encodeAddr A ++ P :=
    List.take_of_length_le (by simp)
  have hstrip : timedCopyWrite Mode.relayClient A (encodeAddr A ++ P)
      ((encodeAddr A).length + P.length) = P := by
    show ((encodeAddr A ++ P).take ((encodeAddr A).length + P.length)).drop
        (splitLenOrZero ((encodeAddr A ++ P).take ((encodeAddr A).length + P.length))) = P
    rw [htk]
    simp only [splitLenOrZero, hlen]
    exact List.drop_left _ _
  exact ⟨hsplit, hdec, hstrip⟩

/-- Witness for C5: the concrete address 203.0.113.5:9000 (port bytes
35, 40) and payload `[1, 2, 3]`. -/
theorem framing_round_trip_witness :
    splitAddr (encodeAddr (SocksAddr.ipv4 [203, 0, 113, 5] [35, 40]) ++ [1, 2, 3]) =
      some (encodeAddr (SocksAddr.ipv4 [203, 0, 113, 5] [35, 40]), [1, 2, 3]) ∧
    decodeAddr (encodeAddr (SocksAddr.ipv4 [203, 0, 113, 5] [35, 40])) =
      some (SocksAddr.ipv4 [203, 0, 113, 5] [35, 40]) ∧
    timedCopyWrite Mode.relayClient (SocksAddr.ipv4 [203, 0, 113, 5] [35, 40])
        (encodeAddr (SocksAddr.ipv4 [203, 0, 113, 5] [35, 40]) ++ [1, 2, 3])
        ((encodeAddr (SocksAddr.ipv4 [203, 0, 113, 5] [35, 40])).length + 3) =
      [1, 2, 3] :=
  framing_round_trip (SocksAddr.ipv4 [203, 0, 113, 5] [35, 40]) [1, 2, 3] (by decide)

/-! ## Malformed datagrams -/

/-- Counterexample to C4 as stated: in the return-path copy loop in role
`relayClient` (ClientToUser), a datagram whose leading bytes are not a
valid target-address-prefix is NOT discarded.  `socks.SplitAddr` returns
`nil`, `len(nil) = 0`, and the branch writes `buf[0:n]` — the entire
malformed datagram is forwarded: on the 1-byte datagram `[0]` (invalid
address type 0) the branch writes `[0]`, not nothing. -/
theorem relayClient_malformed_forwarded_cex :
    splitAddr [0] = none ∧
    timedCopyWrite Mode.relayClient (SocksAddr.ipv4 [0, 0, 0, 0] [0, 0]) [0] 1 = [0] ∧
    timedCopyWrite Mode.relayClient (SocksAddr.ipv4 [0, 0, 0, 0] [0, 0]) [0] 1 ≠ [] := by
  decide

/-- C4 (amended): a datagram without a valid target-address-prefix never
tears down a session.  In the remote drain loop a failed split skips to the
buffer release (`goto End`): the malformed datagram produces no write, its
buffer is released, and the loop continues with the remaining datagrams —
every received datagram's buffer is released and processing always runs to
the end of the queue.  In the `relayClient` return-path branch the
malformed datagram is not discarded but forwarded whole (`len(nil) = 0`),
likewise without ending the loop. -/
theorem malformed_datagram_handling (resolveOk : List Nat → Bool)
    (d : List Nat) (ds : List (List Nat)) (hd : splitAddr d = none) :
    (drainLoop resolveOk (d :: ds)).1 = (drainLoop resolveOk ds).1 ∧
    (drainLoop resolveOk (d :: ds)).2 = (drainLoop resolveOk ds).2 + 1 ∧
    (∀ es : List (List Nat), (drainLoop resolveOk es).2 = es.length) ∧
    (∀ (raddr : SocksAddr) (buf : List Nat) (n : Nat),
      splitAddr (buf.take n) = none →
      timedCopyWrite Mode.relayClient raddr buf n = buf.take n) := by
  refine ⟨by simp [drainLoop, hd], by simp [drainLoop, hd], ?_, ?_⟩
  · intro es
    induction es with
    | nil => simp [drainLoop]
    | cons e es ih =>
      cases he : splitAddr e with
      | none => simp [drainLoop, he, ih]
      | some pr =>
        obtain ⟨pfx, rest⟩ := pr
        by_cases hro : resolveOk pfx <;> simp [drainLoop, he, hro, ih]
  · intro raddr buf n hn
    show (buf.take n).drop (splitLenOrZero (buf.take n)) = buf.take n
    cases hsl : splitAddrLen (buf.take n) with
    | none => simp [splitLenOrZero, hsl]
    | some l => simp [splitAddr, hsl] at hn

/-- Witness for C4 (amended): the malformed datagram `[0]` in the drain
loop produces no write yet is released, and the malformed 2-byte datagram
`[0, 7]` is forwarded whole by the `relayClient` branch. -/
theorem malformed_datagram_handling_witness :
    (drainLoop (fun _ => true) [[0]]).1 = [] ∧
    (drainLoop (fun _ => true) [[0]]).2 = 1 ∧
    timedCopyWrite Mode.relayClient (SocksAddr.ipv4 [0, 0, 0, 1] [0, 1]) [0, 7] 2 =
      [0, 7] := by
  have h := malformed_datagram_handling (fun _ => true) [0] [] (by decide)
  refine ⟨h.1.trans rfl, h.2.1.trans rfl, h.2.2.2 (SocksAddr.ipv4 [0, 0, 0, 1] [0, 1]) [0, 7] 2 (by decide)⟩

/-! ## Idle timeout and session expiry -/

/-- C9: in the `timedCopy` trace, every read is immediately preceded by a
deadline-setting operation (and no read happens before the first deadline
is set); a trace with no return traffic within the window — a read that
ends in deadline expiry — terminates the loop with the timeout error and
performs no write; after `timedCopy` returns, the `natmap.Add` reaper
removes the peer's entry and closes exactly the stored forwarding socket,
and a subsequent datagram from the same peer then finds no session and
creates a fresh forwarding socket. -/
theorem idle_timeout_expiry :
    (∀ (role : Mode) (buf : List Nat) (es : List ReadRes),
      List.Chain' deadlineBeforeRead (timedCopyOps role buf es) ∧
      ∀ r : ReadRes, (timedCopyOps role buf es).head? ≠ some (CopyOp.read r)) ∧
    (∀ (role : Mode) (buf : List Nat),
      timedCopyOps role buf [ReadRes.timeout] =
        [CopyOp.setDeadline, CopyOp.read ReadRes.timeout] ∧
      timedCopyResult [ReadRes.timeout] = some ReadRes.timeout) ∧
    (∀ (t : List (String × Nat)) (k : String) (pc fresh : Nat),
      natGet k t = some pc →
      (addReaper k t).2 = [pc] ∧
      natGet k (addReaper k t).1 = none ∧
      (socksLookupCreate k fresh (addReaper k t).1).2.2 = true ∧
      (socksLookupCreate k fresh (addReaper k t).1).1 = fresh) := by
  have hchain : ∀ (role : Mode) (es : List ReadRes) (buf : List Nat),
      List.Chain' deadlineBeforeRead (timedCopyOps role buf es) := by
    intro role es
    induction es with
    | nil => intro buf; simp [timedCopyOps]
    | cons r es ih =>
      intro buf
      cases r with
      | timeout => simp [timedCopyOps, List.chain'_cons, deadlineBeforeRead]
      | fail => simp [timedCopyOps, List.chain'_cons, deadlineBeforeRead]
      | ok raddr data =>
        show List.Chain' deadlineBeforeRead
          (CopyOp.setDeadline :: CopyOp.read (ReadRes.ok raddr data) ::
            CopyOp.write (timedCopyWrite role raddr (readInto buf data) data.length) ::
            timedCopyOps role
              (timedCopyStepBuf role raddr (readInto buf data) data.length) es)
        refine List.chain'_cons.mpr ⟨fun r hr => rfl, ?_⟩
        refine List.chain'_cons.mpr ⟨fun r hr => absurd hr (by simp), ?_⟩
        refine List.chain'_cons'.mpr ⟨?_, ih _⟩
        intro y hy r hyr
        cases es with
        | nil => simp [timedCopyOps] at hy
        | cons r1 es1 =>
          simp only [timedCopyOps, List.head?_cons, Option.mem_def,
            Option.some_inj] at hy
          subst hy
          simp at hyr
  refine ⟨?_, ?_, ?_⟩
  · intro role buf es
    refine ⟨hchain role es buf, ?_⟩
    intro r
    cases es with
    | nil => simp [timedCopyOps]
    | cons r1 es1 => simp [timedCopyOps]
  · intro role buf
    exact ⟨rfl, rfl⟩
  · intro t k pc fresh h
    simp only [natGet] at h
    refine ⟨by simp [addReaper, natDel, h], ?_, ?_, ?_⟩
    · simp [addReaper, natDel, h, natGet, lookupKey_removeKey]
    · simp [addReaper, natDel, h, socksLookupCreate, natGet, lookupKey_removeKey]
    · simp [addReaper, natDel, h, socksLookupCreate, natGet, lookupKey_removeKey]

/-- Witness for C9: a table holding session socket 5 for peer `p`; the
reaper closes exactly socket 5 and removes the entry, and the next datagram
from `p` creates the fresh socket 9. -/
theorem idle_timeout_expiry_witness :
    (addReaper "p" [("p", 5)]).2 = [5] ∧
    natGet "p" (addReaper "p" [("p", 5)]).1 = none ∧
    (socksLookupCreate "p" 9 (addReaper "p" [("p", 5)]).1).2.2 = true ∧
    (socksLookupCreate "p" 9 (addReaper "p" [("p", 5)]).1).1 = 9 :=
  idle_timeout_expiry.2.2 [("p", 5)] "p" 5 9 (by decide)

/-! ## The return path of the remote relay -/

/-- C3: the documented behavior of the remote relay's return path — the
`remoteServer` (ServerToClient) branch of `timedCopy`, evaluated on a
concrete reply: a 2-byte reply from target 203.0.113.5:9000 is re-wrapped
with the target-address-prefix of its source before being written back.
The call site itself (udp.go line 215) reads
`timedCopy(raddr, c, pc, config.UDPTimeout, true)`, passing `raddr`
(a `net.Addr`) where the `net.PacketConn` destination is expected and the
untyped bool `true` where the `mode` value `remoteServer` is required,
which does not type-check against
`timedCopy(dst net.PacketConn, target net.Addr, src net.PacketConn,
timeout time.Duration, role mode)`; the surrounding comments
("receive from udpLocal and send to client", "server -> client: add
original packet source") document the intent this theorem evaluates. -/
theorem udpRemote_return_path_rewraps :
    timedCopyWrite Mode.remoteServer (SocksAddr.ipv4 [203, 0, 113, 5] [35, 40])
        ([9, 9] ++ List.replicate 12 0) 2 =
      encodeAddr (SocksAddr.ipv4 [203, 0, 113, 5] [35, 40]) ++ [9, 9] := by
  decide

end UdpRelay
